import Mathlib

/-!
Verification of the PrairieLearn Manager navigation core
(`PrairieLearnManager.py`) against its specification.

The program is shallowly embedded: filesystem paths are lists of path
components (the root directory is `[]`), the filesystem is a structure of
file/directory listings plus per-descriptor JSON data, and every fallible
operation returns a `PResult` where `PResult.fatal r` models the program's
`error(...)` helper (print one diagnostic, `exit(r)`).
-/

set_option maxRecDepth 10000

/-- Outcome of a program fragment that can call `error(s, retval)`:
`ok v` is normal return, `fatal r` models printing a single diagnostic and
exiting the whole process with status `r` (the source's `error` defaults to
`retval=1`). -/
inductive PResult (α : Type) where
  | ok (val : α)
  | fatal (retval : Nat)
  deriving DecidableEq

/-- ASCII model of Python `str.lower` on a single character. -/
def pyLowerChar (c : Char) : Char :=
  if 65 ≤ c.toNat && c.toNat ≤ 90 then Char.ofNat (c.toNat + 32) else c

/-- Model of Python `str.lower` (ASCII range, as used by the program's labels). -/
def pyLower (s : String) : String := ⟨s.data.map pyLowerChar⟩

/-- Whitespace characters removed by Python `str.strip`. -/
def isPySpace (c : Char) : Bool :=
  c.toNat == 32 || c.toNat == 9 || c.toNat == 10 || c.toNat == 13 ||
    c.toNat == 11 || c.toNat == 12

/-- Model of Python `str.strip`. -/
def pyStrip (s : String) : String :=
  ⟨((s.data.dropWhile isPySpace).reverse.dropWhile isPySpace).reverse⟩

/-- Code-point lexicographic "less or equal" on character lists, mirroring
Python's string comparison. -/
def charListLe : List Char → List Char → Bool
  | [], _ => true
  | _ :: _, [] => false
  | a :: as, b :: bs => a.toNat < b.toNat || (a.toNat == b.toNat && charListLe as bs)

/-- Code-point lexicographic "less or equal" on strings (Python `<=`). -/
def strLe (s t : String) : Bool := charListLe s.data t.data

/-- Stable insertion (insert `x` before the first element whose key is not
below `x`'s key): the insertion step of a stable sort keyed by `key`,
mirroring Python's stable `sorted(..., key=...)`. -/
def insKeyed (key : α → String) (x : α) : List α → List α
  | [] => [x]
  | y :: ys => if strLe (key x) (key y) then x :: y :: ys else y :: insKeyed key x ys

/-- Stable sort by `key` under code-point comparison: the model of Python's
`sorted(iterable, key=...)`. -/
def sortKeyed (key : α → String) : List α → List α
  | [] => []
  | x :: xs => insKeyed key x (sortKeyed key xs)

/-- A filesystem path as its list of components from the filesystem root;
`[]` is the root directory `/` (so `Path('/').parent == Path('/')` becomes
`[].dropLast = []`). -/
abbrev FPath := List String

/-- The filesystem root `/` (`ROOT_PATH = Path('/')` in the source). -/
def ROOT_PATH : FPath := []

/-- Name (last component) of a path, `Path.name`. -/
def nameOf (p : FPath) : String := p.getLastD ""

/-- `base` is an initial segment of `p` (so `p` lies at or under directory
`base`). -/
def pathUnder : FPath → FPath → Bool
  | [], _ => true
  | _ :: _, [] => false
  | b :: bs, x :: xs => b == x && pathUnder bs xs

/-- Descriptor data of an `infoCourse.json` file (fields the program uses). -/
structure CourseData where
  name : String
  title : String
  deriving DecidableEq

/-- Descriptor data of an `infoCourseInstance.json` file. -/
structure CIData where
  longName : String
  deriving DecidableEq

/-- One entry of an assessment descriptor's `zones` array: a `title` and the
`id` strings of its `questions` array. -/
structure ZoneData where
  title : String
  questions : List String
  deriving DecidableEq

/-- Descriptor data of an `infoAssessment.json` file. -/
structure AData where
  aset : String
  number : String
  title : String
  atype : String
  zones : List ZoneData
  deriving DecidableEq

/-- Descriptor data of a question's `info.json` file. -/
structure QData where
  title : String
  deriving DecidableEq

/-- Shallow model of the filesystem the program reads: the regular files and
directories that exist (their list order models the OS's arbitrary
enumeration order for `iterdir`/`glob`), the directories whose contents
cannot be probed (a probe inside them raises `PermissionError`), and the
parsed JSON data served for each kind of descriptor file, keyed by the
directory holding the descriptor. -/
structure FS where
  files : List FPath
  dirs : List FPath
  denied : List FPath
  courseInfo : FPath → CourseData
  ciInfo : FPath → CIData
  aInfo : FPath → AData
  qInfo : FPath → QData

/-- `Path.is_file`. -/
def FS.isFile (fs : FS) (p : FPath) : Bool := fs.files.contains p

/-- `Path.is_dir`. -/
def FS.isDir (fs : FS) (p : FPath) : Bool := fs.dirs.contains p

/-- Fuel-driven body of `find_course_path`: one step per remaining path
component (the fuel makes the recursion structural; it is always called with
fuel equal to the path length, which suffices since each step drops the last
component). -/
def find_course_aux (fs : FS) : Nat → FPath → PResult FPath
  | _, [] => .fatal 1
  | 0, _ :: _ => .fatal 1
  | n + 1, p =>
    if fs.isFile (p ++ ["infoCourse.json"]) then .ok p
    else find_course_aux fs n p.dropLast

/-- `find_course_path(orig_path)`: walk `orig_path` and then its successive
parents while the current path is not `ROOT_PATH`, returning the first one
whose `infoCourse.json` is a file; once the current path equals the root the
loop ends and `error(...)` exits with status 1 (modelled as `.fatal 1`). -/
def find_course_path (fs : FS) (orig_path : FPath) : PResult FPath :=
  find_course_aux fs orig_path.length orig_path

/-- Fuel-driven body of `walk_chain`. -/
def walk_chain_aux : Nat → FPath → List FPath
  | _, [] => []
  | 0, _ :: _ => []
  | n + 1, p => p :: walk_chain_aux n p.dropLast

/-- The sequence of directories the upward course search examines, in order:
the start path, its parent, and so on, stopping strictly before the
filesystem root (which the loop never examines). -/
def walk_chain (p : FPath) : List FPath := walk_chain_aux p.length p

/-- Strict left-to-right collection of a fallible constructor over a list:
the model of fully consuming one of the program's generators, which raises
(exits) at the first element whose construction calls `error(...)`. -/
def presultMapList (f : α → PResult β) : List α → PResult (List β)
  | [] => .ok []
  | x :: xs =>
    match f x with
    | .fatal r => .fatal r
    | .ok y =>
      match presultMapList f xs with
      | .fatal r => .fatal r
      | .ok ys => .ok (y :: ys)

/-- A PrairieLearn course handle (`PLCourse`): an immutable directory path. -/
structure PLCourse where
  path : FPath
  deriving DecidableEq

/-- A PrairieLearn course-instance handle (`PLCourseInstance`). -/
structure PLCourseInstance where
  path : FPath
  deriving DecidableEq

/-- A PrairieLearn assessment handle (`PLAssessment`). -/
structure PLAssessment where
  path : FPath
  deriving DecidableEq

/-- A PrairieLearn zone handle (`PLZone`): the zone's descriptor array entry
plus the path of the owning assessment's `infoAssessment.json` file. -/
structure PLZone where
  data : ZoneData
  path : FPath
  deriving DecidableEq

/-- A PrairieLearn question handle (`PLQuestion`). -/
structure PLQuestion where
  path : FPath
  deriving DecidableEq

/-- `PLCourse.__init__`: fatal error unless `path/infoCourse.json` is a file. -/
def PLCourse.init (fs : FS) (path : FPath) : PResult PLCourse :=
  if fs.isFile (path ++ ["infoCourse.json"]) then .ok ⟨path⟩ else .fatal 1

/-- `PLCourseInstance.__init__`: fatal unless `path/infoCourseInstance.json`
is a file. -/
def PLCourseInstance.init (fs : FS) (path : FPath) : PResult PLCourseInstance :=
  if fs.isFile (path ++ ["infoCourseInstance.json"]) then .ok ⟨path⟩ else .fatal 1

/-- `PLAssessment.__init__`: fatal unless `path/infoAssessment.json` is a
file. -/
def PLAssessment.init (fs : FS) (path : FPath) : PResult PLAssessment :=
  if fs.isFile (path ++ ["infoAssessment.json"]) then .ok ⟨path⟩ else .fatal 1

/-- `PLQuestion.__init__`: fatal unless both `path/question.html` and
`path/info.json` are files. -/
def PLQuestion.init (fs : FS) (path : FPath) : PResult PLQuestion :=
  if fs.isFile (path ++ ["question.html"]) && fs.isFile (path ++ ["info.json"])
  then .ok ⟨path⟩ else .fatal 1

/-- Matches of `base.rglob(fname)`: every filesystem entry (file or
directory) strictly below `base` whose name is `fname`, in the filesystem's
enumeration order. -/
def rglobMatches (fs : FS) (base : FPath) (fname : String) : List FPath :=
  (fs.files ++ fs.dirs).filter
    (fun p => pathUnder base p && decide (base.length < p.length) && (nameOf p == fname))

/-- `PLCourse.iter_course_instances`, fully consumed: for each match of
`glob('courseInstances/*/infoCourseInstance.json')`, construct a
`PLCourseInstance` on the match's parent directory. -/
def PLCourse.iter_course_instances (fs : FS) (c : PLCourse) : PResult (List PLCourseInstance) :=
  let base := c.path ++ ["courseInstances"]
  presultMapList (fun p => PLCourseInstance.init fs p.dropLast)
    ((fs.files ++ fs.dirs).filter
      (fun p => pathUnder base p && (p.length == base.length + 2) &&
        (nameOf p == "infoCourseInstance.json")))

/-- `PLCourse.iter_questions`, fully consumed: for each match of
`(path/'questions').rglob('question.html')`, construct a `PLQuestion` on the
match's parent directory. -/
def PLCourse.iter_questions (fs : FS) (c : PLCourse) : PResult (List PLQuestion) :=
  presultMapList (fun p => PLQuestion.init fs p.dropLast)
    (rglobMatches fs (c.path ++ ["questions"]) "question.html")

/-- `PLCourseInstance.iter_assessments`, fully consumed. -/
def PLCourseInstance.iter_assessments (fs : FS) (ci : PLCourseInstance) : PResult (List PLAssessment) :=
  presultMapList (fun p => PLAssessment.init fs p.dropLast)
    (rglobMatches fs (ci.path ++ ["assessments"]) "infoAssessment.json")

/-- `PLAssessment.iter_zones`: one `PLZone` per entry of the descriptor's
`zones` array, in array order, each carrying the `infoAssessment.json` path. -/
def PLAssessment.iter_zones (fs : FS) (a : PLAssessment) : List PLZone :=
  (fs.aInfo a.path).zones.map (fun z => ⟨z, a.path ++ ["infoAssessment.json"]⟩)

/-- `PLZone.iter_questions`, fully consumed: resolve the owning course root
upward from the zone's `infoAssessment.json` path, require
`<root>/questions` to be a directory, then construct a `PLQuestion` at
`<root>/questions/<id>` for each entry of the zone's `questions` array. -/
def PLZone.iter_questions (fs : FS) (z : PLZone) : PResult (List PLQuestion) :=
  match find_course_path fs z.path with
  | .fatal r => .fatal r
  | .ok root =>
    let questions_path := root ++ ["questions"]
    if fs.isDir questions_path then
      presultMapList (fun i => PLQuestion.init fs (questions_path ++ [i]))
        z.data.questions
    else .fatal 1

/-- Map over the success value of a fallible computation, propagating a
fatal exit unchanged. -/
def presultMap (g : α → β) : PResult α → PResult β
  | .ok v => .ok (g v)
  | .fatal r => .fatal r

/-- Choice-list label of a course instance in `app_course_instances`:
`'<ansigreen>%s</ansigreen> (%s)' % (longName, path.name)`. -/
def instance_label (fs : FS) (ci : PLCourseInstance) : String :=
  "<ansigreen>" ++ (fs.ciInfo ci.path).longName ++ "</ansigreen> (" ++ nameOf ci.path ++ ")"

/-- Choice-list label of an assessment in `app_assessments`:
`'<ansigreen>%s %s</ansigreen> - %s (%s)' % (set, number, title, type)`. -/
def assessment_label (fs : FS) (a : PLAssessment) : String :=
  "<ansigreen>" ++ (fs.aInfo a.path).aset ++ " " ++ (fs.aInfo a.path).number ++
    "</ansigreen> - " ++ (fs.aInfo a.path).title ++ " (" ++ (fs.aInfo a.path).atype ++ ")"

/-- Choice-list label of a zone in `app_zones`:
`'<ansigreen>%s</ansigreen>' % title`. -/
def zone_label (z : PLZone) : String :=
  "<ansigreen>" ++ z.data.title ++ "</ansigreen>"

/-- Choice-list label of a question in the question views:
`'<ansigreen>%s</ansigreen> (%s)' % (title, path.name)`. -/
def question_label (fs : FS) (q : PLQuestion) : String :=
  "<ansigreen>" ++ (fs.qInfo q.path).title ++ "</ansigreen> (" ++ nameOf q.path ++ ")"

/-- The sort key the child listings use: `x[1].value.lower()`, the lowered
label string. -/
def labelKey (e : α × String) : String := pyLower e.2

/-- The child portion of `PLCourse.app_course_instances`'s `values` list:
labelled instances sorted by lowered label (the exit sentinel is appended
separately). -/
def PLCourse.app_course_instances_children (fs : FS) (c : PLCourse) :
    PResult (List (PLCourseInstance × String)) :=
  presultMap (fun cis => sortKeyed labelKey (cis.map (fun ci => (ci, instance_label fs ci))))
    (c.iter_course_instances fs)

/-- The child portion of `PLCourse.app_questions`'s `values` list. -/
def PLCourse.app_questions_children (fs : FS) (c : PLCourse) :
    PResult (List (PLQuestion × String)) :=
  presultMap (fun qs => sortKeyed labelKey (qs.map (fun q => (q, question_label fs q))))
    (c.iter_questions fs)

/-- The child portion of `PLCourseInstance.app_assessments`'s `values` list. -/
def PLCourseInstance.app_assessments_children (fs : FS) (ci : PLCourseInstance) :
    PResult (List (PLAssessment × String)) :=
  presultMap (fun as2 => sortKeyed labelKey (as2.map (fun a => (a, assessment_label fs a))))
    (ci.iter_assessments fs)

/-- The child portion of `PLAssessment.app_zones`'s `values` list: a plain
list comprehension over `iter_zones`, with no sorting applied. -/
def PLAssessment.app_zones_children (fs : FS) (a : PLAssessment) : List (PLZone × String) :=
  (a.iter_zones fs).map (fun z => (z, zone_label z))

/-- The child portion of `PLZone.app_questions`'s `values` list. -/
def PLZone.app_questions_children (fs : FS) (z : PLZone) :
    PResult (List (PLQuestion × String)) :=
  presultMap (fun qs => sortKeyed labelKey (qs.map (fun q => (q, question_label fs q))))
    (z.iter_questions fs)

/-- Label of `APP_EXIT_TUPLE` (its selection value is Python `False`). -/
def EXIT_LABEL : String := "<ansired>--- Exit Application ---</ansired>"

/-- Append the exit sentinel to an already-sorted child list, as every view
does with `values.append(APP_EXIT_TUPLE)`; `none` is the sentinel's value. -/
def withExit (children : List (α × String)) : List (Option α × String) :=
  children.map (fun e => (some e.1, e.2)) ++ [(none, EXIT_LABEL)]

/-- The complete `values` list of `PLCourseInstance.app_assessments`:
sorted children then the exit sentinel. -/
def PLCourseInstance.app_assessments_values (fs : FS) (ci : PLCourseInstance) :
    PResult (List (Option PLAssessment × String)) :=
  presultMap withExit (ci.app_assessments_children fs)

/-- Selection value of an entry of the pre-course browser's choice list. -/
inductive NavSel where
  | goto (p : FPath)
  | selectHere
  | quit
  deriving DecidableEq

/-- Label of a subdirectory entry in the pre-course browser: green markup if
it contains `infoCourse.json`, bare name otherwise. -/
def nav_child_label (fs : FS) (child : FPath) : String :=
  if fs.isFile (child ++ ["infoCourse.json"])
  then "<ansigreen>" ++ nameOf child ++ "</ansigreen>"
  else nameOf child

/-- `curr_path.iterdir()`: the immediate entries (files and directories) of
a directory, in the filesystem's enumeration order. -/
def iterdirPaths (fs : FS) (curr : FPath) : List FPath :=
  (fs.dirs ++ fs.files).filter
    (fun p => pathUnder curr p && (p.length == curr.length + 1))

/-- Sort key of the pre-course browser: `x.name.strip().lower()`. -/
def nav_key (p : FPath) : String := pyLower (pyStrip (nameOf p))

/-- Does `child.name[0] != '.'` fail, i.e. is the name dot-prefixed? -/
def dotFirst (s : String) : Bool := s.data.headD ' ' == '.'

/-- The subdirectory entries of one round of `app_nav_course`: all entries
sorted by stripped-lowered name, keeping directories (dotfiles excluded
unless `show_hidden`), and silently dropping any directory whose
`infoCourse.json` probe raises an access error (`except: continue`). -/
def app_nav_children (fs : FS) (curr : FPath) (show_hidden : Bool) :
    List (FPath × String) :=
  (sortKeyed nav_key (iterdirPaths fs curr)).filterMap (fun child =>
    if fs.isDir child && (show_hidden || !dotFirst (nameOf child)) then
      if fs.denied.contains child then none
      else some (child, nav_child_label fs child)
    else none)

/-- The complete `values` list of one round of `app_nav_course`: the parent
entry (unless at the filesystem root), the "Select This Course" entry (when
`curr/infoCourse.json` exists), the sorted subdirectory entries, and the
exit sentinel. -/
def app_nav_values (fs : FS) (curr : FPath) (show_hidden : Bool) :
    List (NavSel × String) :=
  (if curr = ROOT_PATH then []
    else [(NavSel.goto curr.dropLast, "<ansiblue>.. (Parent Folder)</ansiblue>")]) ++
  (if fs.isFile (curr ++ ["infoCourse.json"])
    then [(NavSel.selectHere, "<ansigreen>--- Select This Course ---</ansigreen>")]
    else []) ++
  (app_nav_children fs curr show_hidden).map (fun e => (NavSel.goto e.1, e.2)) ++
  [(NavSel.quit, EXIT_LABEL)]

/-- What one round of `app_nav_course` does with the dialog's return value
(`None` means the operator dismissed the dialog). -/
inductive NavStep where
  | returnNone
  | processExit
  | selected (p : FPath)
  | descend (p : FPath)
  deriving DecidableEq

/-- Dispatch of `app_nav_course` on the dialog result: `None` returns `None`
to the caller, `False` exits the process, `'.'` returns the current path as
the chosen course, and a path loops with that path as the new current
directory. -/
def app_nav_step (curr : FPath) : Option NavSel → NavStep
  | none => .returnNone
  | some NavSel.quit => .processExit
  | some NavSel.selectHere => .selected curr
  | some (NavSel.goto p) => .descend p

/-- Interpreter for Python `'...%s...%s...' % (a, b, ...)` with string
arguments: each `%s` consumes the next argument. -/
def pformat_aux : List Char → List String → List Char
  | [], _ => []
  | '%' :: 's' :: rest, a :: args => a.data ++ pformat_aux rest args
  | c :: rest, args => c :: pformat_aux rest args

/-- Python `%`-formatting of a format string with string arguments. -/
def pformat (fmt : String) (args : List String) : String :=
  ⟨pformat_aux fmt.data args⟩

/-- `get_course_title`: `'%s: %s' % (name, title)`. -/
def get_course_title (d : CourseData) : String :=
  pformat "%s: %s" [d.name, d.title]

/-- `get_course_instance_title`: the instance's `longName`. -/
def get_course_instance_title (d : CIData) : String := d.longName

/-- `get_assessment_title`: `'%s %s: %s' % (set, number, title)`. -/
def get_assessment_title (d : AData) : String :=
  pformat "%s %s: %s" [d.aset, d.number, d.title]

/-- `get_question_title`: the question's `title`. -/
def get_question_title (d : QData) : String := d.title

/-- How `main()` leaves its argument-parsing section. -/
inductive MainOutcome where
  | usageError (retval : Nat)
  | fatalError (retval : Nat)
  | runWith (p : FPath)
  | interactive
  deriving DecidableEq

/-- Split a character list into groups at `/` separators. -/
def splitComps : List Char → List (List Char)
  | [] => [[]]
  | c :: rest =>
    let r := splitComps rest
    if c == '/' then [] :: r
    else (c :: r.headD []) :: r.tail

/-- `Path(argument)`: the path components of a textual path. -/
def str_to_path (s : String) : FPath :=
  (splitComps s.data).filterMap (fun l => if l.isEmpty then none else some ⟨l⟩)

/-- The argument-parsing section of `main()`: more than one positional
argument (`len(argv) > 2`, `argv` including the program name) or a help flag
is `error(USAGE)` with status 1, decided before any filesystem access;
exactly one positional argument must name an existing directory or
`error('Directory not found: ...')` exits with status 1; otherwise the
interactive browser runs. -/
def main_parse (fs : FS) (argv : List String) : MainOutcome :=
  if argv.length > 2 || argv.contains "-h" || argv.contains "--help"
  then .usageError 1
  else if argv.length == 2 then
    if fs.isDir (str_to_path (argv.getD 1 ""))
    then .runWith (str_to_path (argv.getD 1 ""))
    else .fatalError 1
  else .interactive

/-- Outcome of `PLCourse(pl_course_dir)` in `main()`, where `pl_course_dir`
may be `None` (the browser was cancelled): with `None`, the expression
`path / 'infoCourse.json'` raises an unhandled `TypeError` before any
marker check or `error(...)` call. -/
inductive CourseInit where
  | ok (c : PLCourse)
  | fatal (retval : Nat)
  | typeError
  deriving DecidableEq

/-- `PLCourse(pl_course_dir)` on the possibly-`None` result of
`app_nav_course()` (source `main`, lines 509-512). -/
def PLCourse.init_opt (fs : FS) : Option FPath → CourseInit
  | none => .typeError
  | some p =>
    match PLCourse.init fs p with
    | .ok c => .ok c
    | .fatal r => .fatal r

/-- Default descriptor payloads for fixtures whose claims do not read them. -/
def noCourseData : CourseData := ⟨"", ""⟩

def noCIData : CIData := ⟨""⟩

def noAData : AData := ⟨"", "", "", "", []⟩

def noQData : QData := ⟨""⟩

/-- Filesystem whose only course marker sits at the filesystem root. -/
def fsC9 : FS :=
  { files := [["infoCourse.json"]]
    dirs := [[], ["home"], ["home", "user"]]
    denied := []
    courseInfo := fun _ => noCourseData
    ciInfo := fun _ => noCIData
    aInfo := fun _ => noAData
    qInfo := fun _ => noQData }

/-- Assessment descriptor data found at the C4 counterexample. -/
def aDataC4 : AData := ⟨"Exam", "1", "Final", "Exam", []⟩

/-- Empty filesystem fixture. -/
def fsC8 : FS :=
  { files := []
    dirs := []
    denied := []
    courseInfo := fun _ => noCourseData
    ciInfo := fun _ => noCIData
    aInfo := fun _ => noAData
    qInfo := fun _ => noQData }

/-- Browser fixture: `r` holds an accessible subdirectory `ok` and a
subdirectory `secret` whose contents cannot be probed. -/
def fsC6 : FS :=
  { files := []
    dirs := [["r"], ["r", "ok"], ["r", "secret"]]
    denied := [["r", "secret"]]
    courseInfo := fun _ => noCourseData
    ciInfo := fun _ => noCIData
    aInfo := fun _ => noAData
    qInfo := fun _ => noQData }

/-- A small valid course: `c/` is the course root, with one instance, one
assessment (one zone referencing question `q1`), and the shared
`c/questions/q1` question directory. -/
def fsC2 : FS :=
  { files := [["c", "infoCourse.json"],
      ["c", "courseInstances", "f24", "infoCourseInstance.json"],
      ["c", "courseInstances", "f24", "assessments", "hw1", "infoAssessment.json"],
      ["c", "questions", "q1", "question.html"],
      ["c", "questions", "q1", "info.json"]]
    dirs := [["c"], ["c", "courseInstances"], ["c", "courseInstances", "f24"],
      ["c", "courseInstances", "f24", "assessments"],
      ["c", "courseInstances", "f24", "assessments", "hw1"],
      ["c", "questions"], ["c", "questions", "q1"]]
    denied := []
    courseInfo := fun _ => ⟨"CS1", "Intro"⟩
    ciInfo := fun _ => ⟨"Fall 2024"⟩
    aInfo := fun _ => ⟨"HW", "1", "Homework 1", "Homework", [⟨"Z1", ["q1"]⟩]⟩
    qInfo := fun _ => ⟨"Q One"⟩ }

/-- The single zone of `fsC2`'s assessment. -/
def zC2 : PLZone :=
  ⟨⟨"Z1", ["q1"]⟩,
    ["c", "courseInstances", "f24", "assessments", "hw1", "infoAssessment.json"]⟩

/-- C5 counterexample filesystem: a course whose `questions/a` directory has
`question.html` but no `info.json`. -/
def fsC5 : FS :=
  { files := [["c", "infoCourse.json"], ["c", "questions", "a", "question.html"]]
    dirs := [["c"], ["c", "questions"], ["c", "questions", "a"]]
    denied := []
    courseInfo := fun _ => noCourseData
    ciInfo := fun _ => noCIData
    aInfo := fun _ => noAData
    qInfo := fun _ => noQData }

/-- C1 counterexample filesystem: the assessment descriptor lists zones
titled `b` then `A`, and the directory being browsed holds subdirectories
discovered in the order `b`, `A`. -/
def fsC1 : FS :=
  { files := []
    dirs := [[], ["b"], ["A"]]
    denied := []
    courseInfo := fun _ => noCourseData
    ciInfo := fun _ => noCIData
    aInfo := fun _ => ⟨"HW", "1", "T", "Homework", [⟨"b", []⟩, ⟨"A", []⟩]⟩
    qInfo := fun _ => noQData }

/-- The assessment handle used by the C1 counterexample. -/
def aC1 : PLAssessment := ⟨["x"]⟩

theorem charListLe_refl (l : List Char) : charListLe l l = true := by
  induction l with
  | nil => rfl
  | cons a as ih => simp [charListLe, ih]

theorem charListLe_total (l m : List Char) :
    charListLe l m = true ∨ charListLe m l = true := by
  induction l generalizing m with
  | nil => exact Or.inl rfl
  | cons a as ih =>
    cases m with
    | nil => exact Or.inr rfl
    | cons b bs =>
      rcases Nat.lt_trichotomy a.toNat b.toNat with h | h | h
      · left; simp [charListLe, h]
      · rcases ih bs with h2 | h2
        · left; simp [charListLe, h, h2]
        · right; simp [charListLe, h, h2]
      · right; simp [charListLe, h]

theorem charListLe_trans {l m n : List Char}
    (h1 : charListLe l m = true) (h2 : charListLe m n = true) :
    charListLe l n = true := by
  induction l generalizing m n with
  | nil => rfl
  | cons a as ih =>
    cases m with
    | nil => simp [charListLe] at h1
    | cons b bs =>
      cases n with
      | nil => simp [charListLe] at h2
      | cons c cs =>
        simp only [charListLe, Bool.or_eq_true, Bool.and_eq_true, beq_iff_eq,
          decide_eq_true_eq] at h1 h2 ⊢
        rcases h1 with h1 | ⟨h1e, h1r⟩
        · rcases h2 with h2 | ⟨h2e, h2r⟩
          · exact Or.inl (Nat.lt_trans h1 h2)
          · exact Or.inl (h2e ▸ h1)
        · rcases h2 with h2 | ⟨h2e, h2r⟩
          · exact Or.inl (h1e ▸ h2)
          · exact Or.inr ⟨h1e.trans h2e, ih h1r h2r⟩

theorem strLe_refl (s : String) : strLe s s = true := charListLe_refl s.data

theorem strLe_total (s t : String) : strLe s t = true ∨ strLe t s = true :=
  charListLe_total s.data t.data

theorem strLe_trans {s t u : String}
    (h1 : strLe s t = true) (h2 : strLe t u = true) : strLe s u = true :=
  charListLe_trans h1 h2

theorem insKeyed_perm (key : α → String) (x : α) (l : List α) :
    List.Perm (insKeyed key x l) (x :: l) := by
  induction l with
  | nil => exact List.Perm.refl _
  | cons y ys ih =>
    by_cases h : strLe (key x) (key y) = true
    · simp [insKeyed, h]
    · simp only [insKeyed, h, if_neg]
      exact ((ih.cons y).trans (List.Perm.swap x y ys)).symm.symm

theorem sortKeyed_perm (key : α → String) (l : List α) :
    List.Perm (sortKeyed key l) l := by
  induction l with
  | nil => exact List.Perm.refl _
  | cons x xs ih =>
    exact (insKeyed_perm key x (sortKeyed key xs)).trans (ih.cons x)

theorem mem_insKeyed {key : α → String} {x z : α} {l : List α}
    (h : z ∈ insKeyed key x l) : z = x ∨ z ∈ l := by
  have := (insKeyed_perm key x l).mem_iff.mp h
  simpa using this

theorem insKeyed_pairwise {key : α → String} {x : α} {l : List α}
    (h : List.Pairwise (fun a b => strLe (key a) (key b) = true) l) :
    List.Pairwise (fun a b => strLe (key a) (key b) = true) (insKeyed key x l) := by
  induction l with
  | nil => simp [insKeyed]
  | cons y ys ih =>
    rcases List.pairwise_cons.mp h with ⟨hy, hys⟩
    by_cases hc : strLe (key x) (key y) = true
    · simp only [insKeyed, hc, if_pos]
      refine List.pairwise_cons.mpr ⟨?_, h⟩
      intro z hz
      rcases List.mem_cons.mp hz with h3 | h3
      · rw [h3]; exact hc
      · exact strLe_trans hc (hy _ h3)
    · simp only [insKeyed, hc, if_neg]
      refine List.pairwise_cons.mpr ⟨?_, ih hys⟩
      intro z hz
      rcases mem_insKeyed hz with h3 | h3
      · rw [h3]
        rcases strLe_total (key x) (key y) with h1 | h1
        · exact absurd h1 hc
        · exact h1
      · exact hy _ h3

theorem sortKeyed_pairwise (key : α → String) (l : List α) :
    List.Pairwise (fun a b => strLe (key a) (key b) = true) (sortKeyed key l) := by
  induction l with
  | nil => simp [sortKeyed]
  | cons x xs ih => exact insKeyed_pairwise ih

theorem insKeyed_filter_key (key : α → String) (x : α) (l : List α) (k : String) :
    (insKeyed key x l).filter (fun z => key z == k) =
      (x :: l).filter (fun z => key z == k) := by
  induction l with
  | nil => rfl
  | cons y ys ih =>
    by_cases hc : strLe (key x) (key y) = true
    · simp [insKeyed, hc]
    · rw [insKeyed, if_neg hc]
      by_cases hx : key x = k
      · by_cases hy : key y = k
        · have hcontra : strLe (key x) (key y) = true := by
            rw [hx, hy]; exact strLe_refl k
          exact absurd hcontra hc
        · simp [List.filter_cons, ih, hx, hy]
      · simp [List.filter_cons, ih, hx]

theorem sortKeyed_filter_key (key : α → String) (l : List α) (k : String) :
    (sortKeyed key l).filter (fun z => key z == k) =
      l.filter (fun z => key z == k) := by
  induction l with
  | nil => rfl
  | cons x xs ih =>
    calc (insKeyed key x (sortKeyed key xs)).filter (fun z => key z == k)
        = (x :: sortKeyed key xs).filter (fun z => key z == k) :=
          insKeyed_filter_key key x (sortKeyed key xs) k
      _ = (x :: xs).filter (fun z => key z == k) := by
          simp [List.filter_cons, ih]

theorem find_course_aux_spec (fs : FS) :
    ∀ (n : Nat) (p : FPath), p.length ≤ n →
      find_course_aux fs n p =
        (match (walk_chain_aux n p).find?
            (fun q => fs.isFile (q ++ ["infoCourse.json"])) with
          | some q => .ok q
          | none => .fatal 1) := by
  intro n
  induction n with
  | zero =>
    intro p hp
    cases p with
    | nil => rfl
    | cons a as => simp at hp
  | succ n ih =>
    intro p hp
    cases p with
    | nil => rfl
    | cons a as =>
      by_cases h : fs.isFile ((a :: as) ++ ["infoCourse.json"]) = true
      · rw [List.cons_append] at h
        simp [find_course_aux, walk_chain_aux, List.find?, h]
      · have hb : fs.isFile ((a :: as) ++ ["infoCourse.json"]) = false := by
          simpa using h
        rw [List.cons_append] at hb
        have hlen : (a :: as).dropLast.length ≤ n := by
          simp only [List.length_dropLast, List.length_cons] at *
          omega
        simp [find_course_aux, walk_chain_aux, List.find?, hb, ih _ hlen]

/-- Characterization of `find_course_path`: it returns the first directory in
the upward walk (start path, then parents, root excluded) containing
`infoCourse.json`, and exits fatally with status 1 when the walk is
exhausted. -/
theorem find_course_path_spec (fs : FS) (p : FPath) :
    find_course_path fs p =
      (match (walk_chain p).find?
          (fun q => fs.isFile (q ++ ["infoCourse.json"])) with
        | some q => .ok q
        | none => .fatal 1) :=
  find_course_aux_spec fs p.length p (Nat.le_refl _)

theorem pathUnder_refl (p : FPath) : pathUnder p p = true := by
  induction p with
  | nil => rfl
  | cons b bs ih => simp [pathUnder, ih]

theorem pathUnder_dropLast :
    ∀ (r s : FPath), pathUnder r s.dropLast = true → pathUnder r s = true := by
  intro r
  induction r with
  | nil => intro s _; rfl
  | cons c cs ihr =>
    intro s hs
    cases s with
    | nil => simp [List.dropLast] at hs; exact hs
    | cons d ds =>
      cases ds with
      | nil => simp [List.dropLast, pathUnder] at hs
      | cons e es =>
        simp only [List.dropLast, pathUnder, Bool.and_eq_true, beq_iff_eq] at hs ⊢
        exact ⟨hs.1, ihr _ hs.2⟩

theorem walk_chain_aux_mem_prefix :
    ∀ (n : Nat) (p q : FPath), q ∈ walk_chain_aux n p → pathUnder q p = true := by
  intro n
  induction n with
  | zero =>
    intro p q hq
    cases p with
    | nil => simp [walk_chain_aux] at hq
    | cons a as => simp [walk_chain_aux] at hq
  | succ n ih =>
    intro p q hq
    cases p with
    | nil => simp [walk_chain_aux] at hq
    | cons a as =>
      simp only [walk_chain_aux, List.mem_cons] at hq
      rcases hq with rfl | hq
      · exact pathUnder_refl _
      · exact pathUnder_dropLast _ _ (ih _ _ hq)

/-- Every directory the upward search examines is an ancestor (initial
segment) of the start path. -/
theorem walk_chain_mem_prefix (p q : FPath) (h : q ∈ walk_chain p) :
    pathUnder q p = true :=
  walk_chain_aux_mem_prefix p.length p q h

theorem presultMapList_ok_of_all (f : α → PResult β) (g : α → β) (l : List α)
    (h : ∀ x ∈ l, f x = .ok (g x)) : presultMapList f l = .ok (l.map g) := by
  induction l with
  | nil => rfl
  | cons x xs ih =>
    have hx := h x (List.mem_cons_self x xs)
    have hxs := ih (fun y hy => h y (List.mem_cons_of_mem x hy))
    simp [presultMapList, hx, hxs]

theorem presultMapList_ok_eq (f : α → PResult β) (g : α → β) (l : List α) (ys : List β)
    (hg : ∀ x y, f x = .ok y → y = g x)
    (h : presultMapList f l = .ok ys) :
    ys = l.map g ∧ ∀ x ∈ l, f x = .ok (g x) := by
  induction l generalizing ys with
  | nil =>
    simp [presultMapList] at h
    simp [← h]
  | cons x xs ih =>
    simp only [presultMapList] at h
    cases hfx : f x with
    | fatal r => rw [hfx] at h; exact absurd h (by simp)
    | ok y =>
      rw [hfx] at h
      cases hrest : presultMapList f xs with
      | fatal r => rw [hrest] at h; exact absurd h (by simp)
      | ok zs =>
        rw [hrest] at h
        have hy : y = g x := hg x y hfx
        have hzs := ih zs hrest
        have hys : ys = y :: zs := by
          cases h; rfl
        subst hys
        refine ⟨by rw [hy, hzs.1]; rfl, ?_⟩
        intro a ha
        rcases List.mem_cons.mp ha with h3 | h3
        · rw [h3, ← hy]; exact hfx
        · exact hzs.2 a h3

theorem presultMapList_fatal_one (f : α → PResult β) (g : α → β) (l : List α)
    (hall : ∀ x ∈ l, f x = .ok (g x) ∨ f x = .fatal 1)
    (hex : ∃ x ∈ l, f x = .fatal 1) :
    presultMapList f l = .fatal 1 := by
  induction l with
  | nil => simp at hex
  | cons x xs ih =>
    rcases hall x (List.mem_cons_self x xs) with hx | hx
    · have hex2 : ∃ y ∈ xs, f y = .fatal 1 := by
        rcases hex with ⟨y, hy, hfy⟩
        rcases List.mem_cons.mp hy with h3 | h3
        · rw [h3] at hfy
          rw [hfy] at hx
          exact absurd hx (by simp)
        · exact ⟨y, h3, hfy⟩
      have := ih (fun y hy => hall y (List.mem_cons_of_mem x hy)) hex2
      simp [presultMapList, hx, this]
    · simp [presultMapList, hx]

theorem pairwise_filterMap_of_pairwise {R : α → α → Prop} {S : β → β → Prop}
    (f : α → Option β)
    (hf : ∀ a b x y, R a b → f a = some x → f b = some y → S x y) :
    ∀ {l : List α}, List.Pairwise R l → List.Pairwise S (l.filterMap f) := by
  intro l h
  induction h with
  | nil => simp
  | cons hx hxs ih =>
    rename_i x xs
    cases hfx : f x with
    | none => simpa [List.filterMap_cons, hfx] using ih
    | some y =>
      simp only [List.filterMap_cons, hfx]
      refine List.pairwise_cons.mpr ⟨?_, ih⟩
      intro z hz
      rcases List.mem_filterMap.mp hz with ⟨a, ha, hfa⟩
      exact hf x a y z (hx a ha) hfx hfa

theorem string_mk_append (a b : List Char) :
    (⟨a⟩ : String) ++ ⟨b⟩ = ⟨a ++ b⟩ := rfl

theorem pformat_colon (s t : String) :
    pformat "%s: %s" [s, t] = s ++ ": " ++ t := by
  obtain ⟨sl⟩ := s
  obtain ⟨tl⟩ := t
  have h1 : (⟨sl⟩ : String) ++ ": " ++ ⟨tl⟩ = ⟨(sl ++ [':', ' ']) ++ tl⟩ := rfl
  have h2 : pformat "%s: %s" [⟨sl⟩, ⟨tl⟩] = ⟨sl ++ ':' :: ' ' :: (tl ++ [])⟩ := rfl
  rw [h1, h2]
  exact congrArg String.mk (by simp)

theorem pformat_set_number_title (s t u : String) :
    pformat "%s %s: %s" [s, t, u] = s ++ " " ++ t ++ ": " ++ u := by
  obtain ⟨sl⟩ := s
  obtain ⟨tl⟩ := t
  obtain ⟨ul⟩ := u
  have h1 : (⟨sl⟩ : String) ++ " " ++ ⟨tl⟩ ++ ": " ++ ⟨ul⟩ =
      ⟨(((sl ++ [' ']) ++ tl) ++ [':', ' ']) ++ ul⟩ := rfl
  have h2 : pformat "%s %s: %s" [⟨sl⟩, ⟨tl⟩, ⟨ul⟩] =
      ⟨sl ++ ' ' :: (tl ++ ':' :: ' ' :: (ul ++ []))⟩ := rfl
  rw [h1, h2]
  exact congrArg String.mk (by simp)

/-- C3: for every start path, `find_course_path` walks the start path and
then its successive parents and returns the first directory containing the
course marker `infoCourse.json`; if the filesystem root is reached without a
match it terminates the process fatally (a single diagnostic and exit status
1, a non-zero code) instead of returning a recoverable error. -/
theorem C3_find_course_path_walk (fs : FS) (p : FPath) :
    find_course_path fs p =
      (match (walk_chain p).find?
          (fun q => fs.isFile (q ++ ["infoCourse.json"])) with
        | some q => PResult.ok q
        | none => PResult.fatal 1) ∧
    (PResult.fatal 1 : PResult FPath) ≠ PResult.ok ROOT_PATH :=
  ⟨find_course_path_spec fs p, by simp⟩

/-- C9: the upward course-root search never examines the filesystem root
itself: when `infoCourse.json` exists at the root but at no directory the
walk examines (start path and proper ancestors strictly above the root),
`find_course_path` still exits fatally rather than returning the root. -/
theorem C9_root_never_examined (fs : FS) (p : FPath)
    (hroot : fs.isFile (ROOT_PATH ++ ["infoCourse.json"]) = true)
    (hchain : ∀ q ∈ walk_chain p, fs.isFile (q ++ ["infoCourse.json"]) = false) :
    find_course_path fs p = .fatal 1 := by
  rw [find_course_path_spec]
  have hnone : (walk_chain p).find?
      (fun q => fs.isFile (q ++ ["infoCourse.json"])) = none := by
    apply List.find?_eq_none.mpr
    intro q hq
    simp [hchain q hq]
  rw [hnone]

/-- C9 witness: with the marker only at `/`, the search from `/home/user`
fails fatally instead of returning `/`. -/
theorem C9_root_never_examined_witness :
    find_course_path fsC9 ["home", "user"] = .fatal 1 :=
  C9_root_never_examined fsC9 ["home", "user"] (by decide) (by decide)

/-- C4 counterexample: the assessment display title for set `Exam`, number
`1`, title `Final` is `"Exam 1: Final"`, not the claimed
`"<set> <number> (<title>)"` shape `"Exam 1 (Final)"`. -/
theorem C4_assessment_title_counterexample :
    get_assessment_title aDataC4 = "Exam 1: Final" ∧
      get_assessment_title aDataC4 ≠ "Exam 1 (Final)" := by
  constructor
  · rfl
  · decide

/-- C4 (amended): the per-kind display titles are Course →
`"<name>: <title>"`, Assessment → `"<set> <number>: <title>"` (a colon, not
parentheses), CourseInstance → its `longName`, Question → its `title`. -/
theorem C4_display_titles_amended (c : CourseData) (ci : CIData) (a : AData) (q : QData) :
    get_course_title c = c.name ++ ": " ++ c.title ∧
    get_assessment_title a = a.aset ++ " " ++ a.number ++ ": " ++ a.title ∧
    get_course_instance_title ci = ci.longName ∧
    get_question_title q = q.title :=
  ⟨pformat_colon c.name c.title, pformat_set_number_title a.aset a.number a.title,
    rfl, rfl⟩

/-- C10: cancelling the pre-course browser makes `app_nav_course` return
`None`; `main` then unconditionally runs `PLCourse(None)`, which dies with
an unhandled `TypeError` (from `None / 'infoCourse.json'`) — not through the
single-diagnostic `error(...)` fatal path, and not by re-prompting. -/
theorem C10_cancel_is_typeerror (fs : FS) (curr : FPath) (r : Nat) (c : PLCourse) :
    app_nav_step curr none = NavStep.returnNone ∧
    PLCourse.init_opt fs none = CourseInit.typeError ∧
    PLCourse.init_opt fs none ≠ CourseInit.fatal r ∧
    PLCourse.init_opt fs none ≠ CourseInit.ok c := by
  refine ⟨rfl, rfl, ?_, ?_⟩ <;> simp [PLCourse.init_opt]

/-- C8: more than one positional argument (`argv` longer than 2 including
the program name) is a usage error with exit status 1 decided without
consulting the filesystem (the outcome is the same for every filesystem);
exactly one positional argument naming a non-directory is a fatal error
with exit status 1; and status 1 is non-zero. -/
theorem C8_argument_errors (fs : FS) (argv : List String) :
    (argv.length > 2 →
      main_parse fs argv = .usageError 1 ∧
      ∀ fs2 : FS, main_parse fs2 argv = .usageError 1) ∧
    (argv.length = 2 → argv.contains "-h" = false → argv.contains "--help" = false →
      fs.isDir (str_to_path (argv.getD 1 "")) = false →
      main_parse fs argv = .fatalError 1) ∧
    (1 : Nat) ≠ 0 := by
  refine ⟨?_, ?_, by decide⟩
  · intro h
    exact ⟨by simp [main_parse, h], fun fs2 => by simp [main_parse, h]⟩
  · intro hlen hh hhelp hdir
    have hh2 : "-h" ∉ argv := by simpa using hh
    have hhelp2 : "--help" ∉ argv := by simpa using hhelp
    unfold main_parse
    rw [if_neg (by simp [hlen, hh2, hhelp2]), if_pos (by simp [hlen]),
      if_neg (by simpa using hdir)]

/-- C8 witness: two positional arguments give the usage error; one
positional argument naming a missing directory gives the fatal error. -/
theorem C8_argument_errors_witness :
    main_parse fsC8 ["plm", "a", "b"] = .usageError 1 ∧
    main_parse fsC8 ["plm", "missing"] = .fatalError 1 :=
  ⟨((C8_argument_errors fsC8 ["plm", "a", "b"]).1 (by decide)).1,
   (C8_argument_errors fsC8 ["plm", "missing"]).2.1 (by decide) (by decide)
     (by decide) (by decide)⟩

/-- C6: in the pre-course browser, a qualifying subdirectory whose probe
raises an access error is silently absent from the listing (no entry of the
produced list is a denied directory), while every accessible qualifying
subdirectory still gets its entry; the listing itself is produced normally
(the function is total: no error outcome exists). -/
theorem C6_denied_dirs_skipped (fs : FS) (curr : FPath) (sh : Bool) :
    (∀ e ∈ app_nav_children fs curr sh, fs.denied.contains e.1 = false) ∧
    (∀ child ∈ iterdirPaths fs curr,
      fs.isDir child = true →
      (sh || !dotFirst (nameOf child)) = true →
      fs.denied.contains child = false →
      (child, nav_child_label fs child) ∈ app_nav_children fs curr sh) := by
  constructor
  · intro e he
    rcases List.mem_filterMap.mp he with ⟨child, hmem, hf⟩
    by_cases h1 : (fs.isDir child && (sh || !dotFirst (nameOf child))) = true
    · rw [if_pos h1] at hf
      by_cases h2 : fs.denied.contains child = true
      · rw [if_pos h2] at hf
        exact absurd hf (by simp)
      · rw [if_neg h2] at hf
        have he2 : e = (child, nav_child_label fs child) := by
          cases hf; rfl
        rw [he2]
        simpa using h2
    · rw [if_neg h1] at hf
      exact absurd hf (by simp)
  · intro child hmem hd hcond hdenied
    apply List.mem_filterMap.mpr
    refine ⟨child, ?_, ?_⟩
    · exact (sortKeyed_perm nav_key (iterdirPaths fs curr)).mem_iff.mpr hmem
    · have hd2 : child ∉ fs.denied := by simpa using hdenied
      rw [if_pos (by simp [hd, hcond]), if_neg (by simp [hd2])]

/-- C6 witness: in `fsC6`, browsing `r` lists the accessible `ok` entry and
no denied entry. -/
theorem C6_denied_dirs_skipped_witness :
    (["r", "ok"], nav_child_label fsC6 ["r", "ok"]) ∈ app_nav_children fsC6 ["r"] false ∧
    ∀ e ∈ app_nav_children fsC6 ["r"] false, fsC6.denied.contains e.1 = false :=
  ⟨(C6_denied_dirs_skipped fsC6 ["r"] false).2 ["r", "ok"] (by decide) (by decide)
      (by decide) (by decide),
   (C6_denied_dirs_skipped fsC6 ["r"] false).1⟩

theorem PLQuestion_init_ok_or_fatal (fs : FS) (p : FPath) :
    PLQuestion.init fs p = .ok ⟨p⟩ ∨ PLQuestion.init fs p = .fatal 1 := by
  unfold PLQuestion.init
  by_cases h : (fs.isFile (p ++ ["question.html"]) && fs.isFile (p ++ ["info.json"])) = true
  · left; rw [if_pos h]
  · right; rw [if_neg h]

theorem PLQuestion_init_ok_eq (fs : FS) (p : FPath) (q : PLQuestion)
    (h : PLQuestion.init fs p = .ok q) : q = ⟨p⟩ := by
  rcases PLQuestion_init_ok_or_fatal fs p with h2 | h2 <;> rw [h2] at h
  · cases h; rfl
  · exact absurd h (by simp)

theorem find_course_path_ok_props (fs : FS) (p root : FPath)
    (h : find_course_path fs p = .ok root) :
    root ∈ walk_chain p ∧ fs.isFile (root ++ ["infoCourse.json"]) = true ∧
      pathUnder root p = true := by
  rw [find_course_path_spec] at h
  cases hfind : (walk_chain p).find? (fun q => fs.isFile (q ++ ["infoCourse.json"])) with
  | none => rw [hfind] at h; exact absurd h (by simp)
  | some q =>
    rw [hfind] at h
    have hq : q = root := by cases h; rfl
    subst hq
    refine ⟨List.mem_of_find?_eq_some hfind, ?_, ?_⟩
    · simpa using List.find?_some hfind
    · exact walk_chain_mem_prefix p q (List.mem_of_find?_eq_some hfind)

/-- Unfolding of `PLZone.iter_questions` when the course-root search
returns a root. -/
theorem PLZone_iter_questions_ok_root (fs : FS) (z : PLZone) (root : FPath)
    (hfind : find_course_path fs z.path = .ok root) :
    PLZone.iter_questions fs z =
      (if fs.isDir (root ++ ["questions"]) = true then
        presultMapList (fun i => PLQuestion.init fs ((root ++ ["questions"]) ++ [i]))
          z.data.questions
      else .fatal 1) := by
  unfold PLZone.iter_questions
  rw [hfind]

/-- Unfolding of `PLZone.iter_questions` when the course-root search fails. -/
theorem PLZone_iter_questions_fatal_root (fs : FS) (z : PLZone) (r : Nat)
    (hfind : find_course_path fs z.path = .fatal r) :
    PLZone.iter_questions fs z = .fatal r := by
  unfold PLZone.iter_questions
  rw [hfind]

/-- C2: whenever a zone's questions enumerate successfully, every entry id
of the zone's `questions` array was resolved to the node at
`<root>/questions/<id>` where `root` is the nearest ancestor course root
found by upward search from the zone's `infoAssessment.json` path (so never
a `questions/` directory inside the instance or assessment subtree); and if
any resolved directory lacks `question.html` or `info.json`, the enumeration
terminates the process fatally. -/
theorem C2_zone_question_resolution (fs : FS) (z : PLZone) :
    (∀ qs, PLZone.iter_questions fs z = .ok qs →
      ∃ root, find_course_path fs z.path = .ok root ∧
        root ∈ walk_chain z.path ∧
        fs.isFile (root ++ ["infoCourse.json"]) = true ∧
        pathUnder root z.path = true ∧
        qs = z.data.questions.map (fun i => ⟨root ++ ["questions", i]⟩)) ∧
    (∀ root, find_course_path fs z.path = .ok root →
      fs.isDir (root ++ ["questions"]) = true →
      (∃ i ∈ z.data.questions,
        fs.isFile (root ++ ["questions", i] ++ ["question.html"]) = false ∨
        fs.isFile (root ++ ["questions", i] ++ ["info.json"]) = false) →
      PLZone.iter_questions fs z = .fatal 1) := by
  constructor
  · intro qs hqs
    cases hfind : find_course_path fs z.path with
    | fatal r =>
      rw [PLZone_iter_questions_fatal_root fs z r hfind] at hqs
      exact absurd hqs (by simp)
    | ok root =>
      rw [PLZone_iter_questions_ok_root fs z root hfind] at hqs
      by_cases hdir : fs.isDir (root ++ ["questions"]) = true
      · rw [if_pos hdir] at hqs
        have hmain := presultMapList_ok_eq _
          (fun i => (⟨(root ++ ["questions"]) ++ [i]⟩ : PLQuestion)) _ _
          (fun i y hy => PLQuestion_init_ok_eq fs _ y hy) hqs
        obtain ⟨hch, hmarker, hpre⟩ := find_course_path_ok_props fs z.path root hfind
        refine ⟨root, rfl, hch, hmarker, hpre, ?_⟩
        rw [hmain.1]
        simp [List.append_assoc]
      · rw [if_neg hdir] at hqs
        exact absurd hqs (by simp)
  · intro root hfind hdir hex
    rw [PLZone_iter_questions_ok_root fs z root hfind, if_pos hdir]
    apply presultMapList_fatal_one _
      (fun i => (⟨(root ++ ["questions"]) ++ [i]⟩ : PLQuestion))
    · intro i hi
      exact PLQuestion_init_ok_or_fatal fs _
    · rcases hex with ⟨i, hi, hbad⟩
      refine ⟨i, hi, ?_⟩
      unfold PLQuestion.init
      rw [if_neg ?hcond]
      case hcond =>
        simp only [List.append_assoc] at hbad ⊢
        intro hand
        rcases Bool.and_eq_true_iff.mp hand with ⟨h1, h2⟩
        rcases hbad with h3 | h3
        · simp only [List.cons_append, List.nil_append] at h1 h3
          rw [h1] at h3
          exact absurd h3 (by simp)
        · simp only [List.cons_append, List.nil_append] at h2 h3
          rw [h2] at h3
          exact absurd h3 (by simp)

/-- C2 witness: in `fsC2`, the zone's enumeration succeeds and resolves
`q1` to `c/questions/q1` via the upward course-root search. -/
theorem C2_zone_question_resolution_witness :
    ∃ root, find_course_path fsC2 zC2.path = .ok root ∧
      root ∈ walk_chain zC2.path ∧
      fsC2.isFile (root ++ ["infoCourse.json"]) = true ∧
      pathUnder root zC2.path = true ∧
      ([⟨["c", "questions", "q1"]⟩] : List PLQuestion) =
        zC2.data.questions.map (fun i => ⟨root ++ ["questions", i]⟩) :=
  (C2_zone_question_resolution fsC2 zC2).1 [⟨["c", "questions", "q1"]⟩] (by decide)

theorem rglob_match_shape (fs : FS) (base : FPath) (fname : String) (p : FPath)
    (h : p ∈ rglobMatches fs base fname) :
    p ≠ [] ∧ nameOf p = fname := by
  rcases List.mem_filter.mp h with ⟨hmem, hcond⟩
  rcases Bool.and_eq_true_iff.mp hcond with ⟨hcond2, hname⟩
  rcases Bool.and_eq_true_iff.mp hcond2 with ⟨hunder, hlen⟩
  have hlen2 : base.length < p.length := by simpa using hlen
  constructor
  · intro hnil
    rw [hnil] at hlen2
    simp at hlen2
  · simpa using hname

theorem eq_dropLast_append_name (p : FPath) (h : p ≠ []) :
    p.dropLast ++ [nameOf p] = p := by
  have h2 : nameOf p = p.getLast h := by
    unfold nameOf
    rw [List.getLastD_eq_getLast? , List.getLast?_eq_getLast p h]
    rfl
  rw [h2]
  exact List.dropLast_append_getLast h

/-- C5 counterexample: in `fsC5` the only directory under `questions/` lacks
`info.json`, so the claim says the enumeration yields no node for it (the
empty enumeration); the code instead terminates fatally. -/
theorem C5_questions_enumeration_counterexample :
    PLCourse.iter_questions fsC5 ⟨["c"]⟩ = .fatal 1 ∧
      PLCourse.iter_questions fsC5 ⟨["c"]⟩ ≠ .ok [] := by
  constructor
  · decide
  · decide

/-- C5 (amended): enumerating a course's questions scans recursively for
`question.html` below `questions/`; when every match's directory also holds
`info.json` the enumeration yields exactly the nodes at those directories
(one per match, with no duplicates on a duplicate-free filesystem, and
nothing for directories without `question.html`); but a match whose
directory lacks either marker file aborts the enumeration fatally instead of
being skipped. -/
theorem C5_course_questions_amended (fs : FS) (c : PLCourse) :
    ((∀ p ∈ rglobMatches fs (c.path ++ ["questions"]) "question.html",
        fs.isFile (p.dropLast ++ ["question.html"]) = true ∧
        fs.isFile (p.dropLast ++ ["info.json"]) = true) →
      PLCourse.iter_questions fs c =
        .ok ((rglobMatches fs (c.path ++ ["questions"]) "question.html").map
          (fun p => ⟨p.dropLast⟩))) ∧
    ((∃ p ∈ rglobMatches fs (c.path ++ ["questions"]) "question.html",
        fs.isFile (p.dropLast ++ ["question.html"]) = false ∨
        fs.isFile (p.dropLast ++ ["info.json"]) = false) →
      PLCourse.iter_questions fs c = .fatal 1) ∧
    ((fs.files ++ fs.dirs).Nodup →
      ((rglobMatches fs (c.path ++ ["questions"]) "question.html").map
        List.dropLast).Nodup) := by
  refine ⟨?_, ?_, ?_⟩
  · intro hall
    unfold PLCourse.iter_questions
    apply presultMapList_ok_of_all _ (fun (p : FPath) => (⟨p.dropLast⟩ : PLQuestion))
    intro p hp
    unfold PLQuestion.init
    rw [if_pos (by simp [(hall p hp).1, (hall p hp).2])]
  · intro hex
    unfold PLCourse.iter_questions
    apply presultMapList_fatal_one _ (fun (p : FPath) => (⟨p.dropLast⟩ : PLQuestion))
    · intro p hp
      exact PLQuestion_init_ok_or_fatal fs _
    · rcases hex with ⟨p, hp, hbad⟩
      refine ⟨p, hp, ?_⟩
      unfold PLQuestion.init
      rw [if_neg ?hcond]
      case hcond =>
        intro hand
        rcases Bool.and_eq_true_iff.mp hand with ⟨h1, h2⟩
        rcases hbad with h3 | h3
        · rw [h1] at h3; exact absurd h3 (by simp)
        · rw [h2] at h3; exact absurd h3 (by simp)
  · intro hnd
    have hfilter : (rglobMatches fs (c.path ++ ["questions"]) "question.html").Nodup :=
      hnd.filter _
    apply hfilter.map_on
    intro p1 h1 p2 h2 heq
    obtain ⟨hne1, hname1⟩ := rglob_match_shape fs _ _ p1 h1
    obtain ⟨hne2, hname2⟩ := rglob_match_shape fs _ _ p2 h2
    calc p1 = p1.dropLast ++ [nameOf p1] := (eq_dropLast_append_name p1 hne1).symm
      _ = p2.dropLast ++ [nameOf p2] := by rw [heq, hname1, hname2]
      _ = p2 := eq_dropLast_append_name p2 hne2

theorem presultMap_eq_ok {g : α → β} {x : PResult α} {vs : β}
    (h : presultMap g x = .ok vs) : ∃ v, x = .ok v ∧ vs = g v := by
  cases x with
  | fatal r => simp [presultMap] at h
  | ok v =>
    refine ⟨v, rfl, ?_⟩
    simp only [presultMap] at h
    cases h
    rfl

/-- C1 (amended): once inside a course, the instance, assessment and
question listings are sorted case-insensitively by their computed display
label, but an assessment's zones listing is presented in descriptor array
order with no sorting; and the pre-course filesystem browser sorts its
entries case-insensitively by stripped directory name, not in discovery
order. -/
theorem C1_child_listing_order_amended :
    (∀ (fs : FS) (c : PLCourse) (vs : List (PLCourseInstance × String)),
      PLCourse.app_course_instances_children fs c = .ok vs →
      List.Pairwise (fun x y => strLe (pyLower x.2) (pyLower y.2) = true) vs) ∧
    (∀ (fs : FS) (ci : PLCourseInstance) (vs : List (PLAssessment × String)),
      PLCourseInstance.app_assessments_children fs ci = .ok vs →
      List.Pairwise (fun x y => strLe (pyLower x.2) (pyLower y.2) = true) vs) ∧
    (∀ (fs : FS) (c : PLCourse) (vs : List (PLQuestion × String)),
      PLCourse.app_questions_children fs c = .ok vs →
      List.Pairwise (fun x y => strLe (pyLower x.2) (pyLower y.2) = true) vs) ∧
    (∀ (fs : FS) (z : PLZone) (vs : List (PLQuestion × String)),
      PLZone.app_questions_children fs z = .ok vs →
      List.Pairwise (fun x y => strLe (pyLower x.2) (pyLower y.2) = true) vs) ∧
    (∀ (fs : FS) (a : PLAssessment),
      PLAssessment.app_zones_children fs a =
        (fs.aInfo a.path).zones.map (fun zd =>
          (⟨zd, a.path ++ ["infoAssessment.json"]⟩,
            "<ansigreen>" ++ zd.title ++ "</ansigreen>"))) ∧
    (∀ (fs : FS) (curr : FPath) (sh : Bool),
      List.Pairwise (fun x y => strLe (nav_key x.1) (nav_key y.1) = true)
        (app_nav_children fs curr sh)) := by
  refine ⟨?_, ?_, ?_, ?_, ?_, ?_⟩
  · intro fs c vs h
    obtain ⟨v, hv, hvs⟩ := presultMap_eq_ok h
    rw [hvs]
    exact sortKeyed_pairwise labelKey _
  · intro fs ci vs h
    obtain ⟨v, hv, hvs⟩ := presultMap_eq_ok h
    rw [hvs]
    exact sortKeyed_pairwise labelKey _
  · intro fs c vs h
    obtain ⟨v, hv, hvs⟩ := presultMap_eq_ok h
    rw [hvs]
    exact sortKeyed_pairwise labelKey _
  · intro fs z vs h
    obtain ⟨v, hv, hvs⟩ := presultMap_eq_ok h
    rw [hvs]
    exact sortKeyed_pairwise labelKey _
  · intro fs a
    simp [PLAssessment.app_zones_children, PLAssessment.iter_zones, zone_label,
      List.map_map, Function.comp]
  · intro fs curr sh
    unfold app_nav_children
    refine pairwise_filterMap_of_pairwise _ ?_
      (sortKeyed_pairwise nav_key (iterdirPaths fs curr))
    intro a b x y hR hfa hfb
    have hxa : x.1 = a := by
      by_cases h1 : (fs.isDir a && (sh || !dotFirst (nameOf a))) = true
      · rw [if_pos h1] at hfa
        by_cases h2 : fs.denied.contains a = true
        · rw [if_pos h2] at hfa; exact absurd hfa (by simp)
        · rw [if_neg h2] at hfa; cases hfa; rfl
      · rw [if_neg h1] at hfa; exact absurd hfa (by simp)
    have hyb : y.1 = b := by
      by_cases h1 : (fs.isDir b && (sh || !dotFirst (nameOf b))) = true
      · rw [if_pos h1] at hfb
        by_cases h2 : fs.denied.contains b = true
        · rw [if_pos h2] at hfb; exact absurd hfb (by simp)
        · rw [if_neg h2] at hfb; cases hfb; rfl
      · rw [if_neg h1] at hfb; exact absurd hfb (by simp)
    rw [hxa, hyb]
    exact hR

/-- C1 counterexample: the zones listing keeps descriptor order `b`, `A`,
which is not case-insensitively sorted by label; and the pre-course browser
lists `A` before `b` even though they were discovered in the order `b`,
`A`. -/
theorem C1_child_listing_order_counterexample :
    (PLAssessment.app_zones_children fsC1 aC1).map (fun e => e.2) =
      ["<ansigreen>b</ansigreen>", "<ansigreen>A</ansigreen>"] ∧
    ¬ List.Pairwise (fun x y => strLe (pyLower x.2) (pyLower y.2) = true)
        (PLAssessment.app_zones_children fsC1 aC1) ∧
    (app_nav_children fsC1 [] false).map (fun e => nameOf e.1) = ["A", "b"] ∧
    (iterdirPaths fsC1 []).map nameOf = ["b", "A"] := by
  refine ⟨by decide, ?_, by decide, by decide⟩
  intro h
  have he : PLAssessment.app_zones_children fsC1 aC1 =
      [(⟨⟨"b", []⟩, ["x", "infoAssessment.json"]⟩, "<ansigreen>b</ansigreen>"),
        (⟨⟨"A", []⟩, ["x", "infoAssessment.json"]⟩, "<ansigreen>A</ansigreen>")] := by
    decide
  rw [he] at h
  have h2 := (List.pairwise_cons.mp h).1 _ (List.mem_cons_self _ _)
  exact absurd h2 (by decide)

/-- C1 witness: in the `fsC2` course the instance listing materializes and
the theorem yields its sortedness. -/
theorem C1_child_listing_order_witness :
    List.Pairwise (fun x y => strLe (pyLower x.2) (pyLower y.2) = true)
      (sortKeyed labelKey
        ([(⟨["c", "courseInstances", "f24"]⟩ : PLCourseInstance)].map
          (fun ci => (ci, instance_label fsC2 ci)))) :=
  C1_child_listing_order_amended.1 fsC2 ⟨["c"]⟩ _ (by decide)

/-- C7: the child-listing sort is ascending by lowered label with a stable
comparison (a permutation of its input, pairwise ordered, preserving the
relative order of entries with equal keys); labels `Midterm`, `final`,
`Quiz1` come out as `final`, `Midterm`, `Quiz1`; and the parent and exit
control entries stay outside the sort — the browser's parent entry is always
first, and the exit sentinel is always the last entry of every assembled
`values` list. -/
theorem C7_list_ordering_stable_sort :
    (∀ (α : Type) (l : List (α × String)),
      List.Perm (sortKeyed labelKey l) l ∧
      List.Pairwise (fun x y => strLe (pyLower x.2) (pyLower y.2) = true)
        (sortKeyed labelKey l) ∧
      ∀ k, (sortKeyed labelKey l).filter (fun e => pyLower e.2 == k) =
        l.filter (fun e => pyLower e.2 == k)) ∧
    (sortKeyed labelKey [((1 : Nat), "Midterm"), (2, "final"), (3, "Quiz1")]).map
        (fun e => e.2) = ["final", "Midterm", "Quiz1"] ∧
    (∀ (fs : FS) (curr : FPath) (sh : Bool), curr ≠ ROOT_PATH →
      (app_nav_values fs curr sh).head? =
        some (NavSel.goto curr.dropLast, "<ansiblue>.. (Parent Folder)</ansiblue>")) ∧
    (∀ (fs : FS) (curr : FPath) (sh : Bool),
      (app_nav_values fs curr sh).getLast? = some (NavSel.quit, EXIT_LABEL)) ∧
    (∀ (fs : FS) (ci : PLCourseInstance) (vs : List (Option PLAssessment × String)),
      PLCourseInstance.app_assessments_values fs ci = .ok vs →
      vs.getLast? = some (none, EXIT_LABEL) ∧
      ∃ cs, PLCourseInstance.app_assessments_children fs ci = .ok cs ∧
        vs = withExit cs) := by
  refine ⟨?_, by decide, ?_, ?_, ?_⟩
  · intro α l
    exact ⟨sortKeyed_perm labelKey l, sortKeyed_pairwise labelKey l,
      fun k => sortKeyed_filter_key labelKey l k⟩
  · intro fs curr sh h
    unfold app_nav_values
    rw [if_neg h]
    rfl
  · intro fs curr sh
    unfold app_nav_values
    simp [List.getLast?_concat, List.append_assoc]
  · intro fs ci vs h
    obtain ⟨cs, hcs, hvs⟩ := presultMap_eq_ok h
    refine ⟨?_, cs, hcs, hvs⟩
    rw [hvs]
    unfold withExit
    exact List.getLast?_concat _

/-- C7 witness: instantiating the control-entry facts on the `fsC6` browser
directory and the `fsC2` course instance. -/
theorem C7_list_ordering_stable_sort_witness :
    (app_nav_values fsC6 ["r"] false).head? =
      some (NavSel.goto (["r"] : FPath).dropLast, "<ansiblue>.. (Parent Folder)</ansiblue>") ∧
    ((withExit (sortKeyed labelKey
        ([(⟨["c", "courseInstances", "f24", "assessments", "hw1"]⟩ : PLAssessment)].map
          (fun a => (a, assessment_label fsC2 a))))).getLast? =
      some (none, EXIT_LABEL) ∧
      ∃ cs, PLCourseInstance.app_assessments_children fsC2
          ⟨["c", "courseInstances", "f24"]⟩ = .ok cs ∧
        withExit (sortKeyed labelKey
          ([(⟨["c", "courseInstances", "f24", "assessments", "hw1"]⟩ : PLAssessment)].map
            (fun a => (a, assessment_label fsC2 a)))) = withExit cs) :=
  ⟨C7_list_ordering_stable_sort.2.2.1 fsC6 ["r"] false (by decide),
   C7_list_ordering_stable_sort.2.2.2.2 fsC2 ⟨["c", "courseInstances", "f24"]⟩ _
     (by decide)⟩

/-- C5 witness: in the `fsC2` course every recursive `question.html` match
also has `info.json`, so the enumeration succeeds with one duplicate-free
node per matching directory. -/
theorem C5_course_questions_amended_witness :
    PLCourse.iter_questions fsC2 ⟨["c"]⟩ =
      .ok ((rglobMatches fsC2 (["c", "questions"]) "question.html").map
        (fun p => ⟨p.dropLast⟩)) ∧
    ((rglobMatches fsC2 (["c", "questions"]) "question.html").map
      List.dropLast).Nodup :=
  ⟨(C5_course_questions_amended fsC2 ⟨["c"]⟩).1 (by decide),
   (C5_course_questions_amended fsC2 ⟨["c"]⟩).2.2 (by decide)⟩
